import Mathlib

/-!
Shallow embedding of `src/components/base/Base.js` (the `BaseComponent`
class of formio.js) together with proofs about the value-synchronisation
engine, the listener registries, the debounced change notification and the
external-library loader.

JavaScript values are modelled by `JSVal`; arrays are modelled by reference
(`JSVal.arr id`) with their contents stored in a heap inside the component
state, so that JavaScript strict equality (`===`) coincides with equality of
`JSVal` and in-place mutation (`push`, `splice`) is faithful.
-/

set_option autoImplicit false

namespace FormioBase

/-- A JavaScript value as used by `BaseComponent`.  Arrays are references
into the heap carried by `BaseState` (`===` on arrays is reference
equality); numbers are modelled as integers (no NaN arises in the claims),
and objects other than arrays do not occur in the modelled code paths. -/
inductive JSVal where
  | null
  | undef
  | str (s : String)
  | num (n : Int)
  | bool (b : Bool)
  | arr (id : Nat)
deriving Repr, DecidableEq

/-- JavaScript truthiness: `null`, `undefined`, `''`, `0` and `false` are
falsy; every array reference is truthy (also when the array is empty). -/
def truthy : JSVal → Bool
  | .null => false
  | .undef => false
  | .str s => !(s == "")
  | .num n => !(n == 0)
  | .bool b => b
  | .arr _ => true

/-- The `_isArray` test from lodash. -/
def isArrayV : JSVal → Bool
  | .arr _ => true
  | _ => false

/-- Reference of an array value (0 for non-arrays; only used under an
`isArrayV` guard). -/
def arrId : JSVal → Nat
  | .arr id => id
  | _ => 0

/-- First-match association lookup, modelling JavaScript property access on
a plain object (`undefined` when absent is added by the callers). -/
def assocGet {κ α : Type} [DecidableEq κ] : List (κ × α) → κ → Option α
  | [], _ => none
  | (k', v) :: rest, k => if k' = k then some v else assocGet rest k

/-- In-place update of an association list: replace the first binding of
the key, or append a fresh binding, modelling `obj[key] = v`. -/
def assocUpd {κ α : Type} [DecidableEq κ] : List (κ × α) → κ → α → List (κ × α)
  | [], k, v => [(k, v)]
  | (k', v') :: rest, k, v =>
      if k' = k then (k, v) :: rest else (k', v') :: assocUpd rest k v

/-- Payload of an emitted `componentChange` event: the `onChange` method
emits `{component, value, validate}`; the schema part is constant, so the
model records the `value` and `validate` fields. -/
structure Emission where
  value : JSVal
  validate : Bool
deriving Repr, DecidableEq

/-- One record of `this.eventListeners`: a logical event-bus registration,
pushed by `on(event, cb, internal)` as `{type, listener, internal}`. -/
structure ListenerRec where
  type : String
  listener : Nat
  internal : Bool
deriving Repr, DecidableEq

/-- One record of `this.eventHandlers`: a raw listener registration pushed
by `addEventListener(obj, evt, func)` as `{type: evt, func: func}`.  Note
that the record has no `event` field; reading `handler.event` in the
source therefore yields `undefined`. -/
structure HandlerRec where
  type : String
  func : Nat
deriving Repr, DecidableEq

/-- A raw DOM listener as actually attached to a node:
(node, event name, callback).  The event name is an `Option` so that a
removal request carrying the JavaScript value `undefined` as the event
name (modelled by `none`) can be expressed; registrations made through
`addEventListener` always carry `some` name. -/
abbrev RawReg := Nat × Option String × Nat

/-- The DOM `window` object, as a node identifier.  Component-created
nodes are allocated from `nextNode`, which example states start at 1. -/
def windowNode : Nat := 0

/-- State of one `BaseComponent` instance, together with the shared data
object, the array heap and the host event hub it interacts with.

Schema fields (`component*`, `options*`) are the parts of the component
descriptor the modelled methods read; they are immutable.  The modelled
descriptor carries a literal `defaultValue` and no `customDefaultValue`
expression (expression evaluation is external `eval`, out of scope).
`inputs` holds the `.value` of each rendered input element; `pending`
models the timer of the lodash-debounced `triggerChange` as the deadline
together with the latest `noValidate` argument; `emissions` collects the
`componentChange` events published on the hub. -/
structure BaseState where
  componentInput : Bool
  componentMultiple : Bool
  componentKey : String
  componentDefaultValue : JSVal
  componentDisabled : Bool
  optionsReadOnly : Bool
  hasEvents : Bool
  data : List (String × JSVal)
  heap : List (Nat × List JSVal)
  nextId : Nat
  value : JSVal
  inputs : List JSVal
  pristine : Bool
  pending : Option (Nat × Bool)
  emissions : List Emission
  eventListeners : List ListenerRec
  eventHandlers : List HandlerRec
  hub : List (String × Nat)
  nodeListeners : List RawReg
  nextNode : Nat
  nextCb : Nat
  tbody : Bool
  disabledFlag : Bool
deriving Repr, DecidableEq

/-- Contents of the array with the given reference (JavaScript dereference
of an array object). -/
def heapGet (s : BaseState) (id : Nat) : List JSVal :=
  (assocGet s.heap id).getD []

/-- In-place mutation of the array with the given reference. -/
def heapSet (s : BaseState) (id : Nat) (elems : List JSVal) : BaseState :=
  { s with heap := assocUpd s.heap id elems }

/-- Allocate a fresh array object holding the given elements. -/
def allocArr (s : BaseState) (elems : List JSVal) : JSVal × BaseState :=
  (JSVal.arr s.nextId,
   { s with heap := (s.nextId, elems) :: s.heap, nextId := s.nextId + 1 })

/-- Read `this.data[this.component.key]` (`undefined` when the key is
absent). -/
def dataGet (s : BaseState) : JSVal :=
  (assocGet s.data s.componentKey).getD JSVal.undef

/-- Write `this.data[this.component.key] = v`. -/
def dataSet (s : BaseState) (v : JSVal) : BaseState :=
  { s with data := assocUpd s.data s.componentKey v }

/-- Whether `this.data.hasOwnProperty(this.component.key)` holds. -/
def dataHasKey (s : BaseState) : Bool :=
  (assocGet s.data s.componentKey).isSome

/-- The `defaultValue` getter for a descriptor without a
`customDefaultValue` expression: the literal `component.defaultValue` when
truthy, else the initial `''`. -/
def defaultValue (s : BaseState) : JSVal :=
  if truthy s.componentDefaultValue then s.componentDefaultValue else JSVal.str ""

/-- `getValueAt(index)`: the live value of the input at the index. -/
def getValueAt (s : BaseState) (i : Nat) : JSVal :=
  s.inputs.getD i JSVal.undef

/-- `getValue()`.  Returns `undefined` without caching when the descriptor
is not input-bound.  Otherwise the `for (let i in this.inputs)` loop either
returns (and caches) the first input value (single-value descriptor, at
least one input) or collects every input value into a fresh array, which
is cached and returned; with a single-value descriptor and no inputs the
loop body never runs and the fresh empty `values` array is cached and
returned. -/
def getValue (s : BaseState) : JSVal × BaseState :=
  if s.componentInput = false then (JSVal.undef, s)
  else if s.componentMultiple = false then
    match s.inputs with
    | v :: _ => (v, { s with value := v })
    | [] =>
        let r := allocArr s []
        (r.1, { r.2 with value := r.1 })
  else
    let r := allocArr s s.inputs
    (r.1, { r.2 with value := r.1 })

/-- `setValueAt(index, value)`: `null`/`undefined` is replaced by the
computed default value, then the input's `.value` is assigned. -/
def setValueAt (s : BaseState) (i : Nat) (v : JSVal) : BaseState :=
  let w := if v = JSVal.null ∨ v = JSVal.undef then defaultValue s else v
  { s with inputs := s.inputs.set i w }

/-- The element `value[i]` read by `setValue` when the value is an array
(string indexing of a JavaScript array; out-of-range gives `undefined`). -/
def elemAt (s : BaseState) (value : JSVal) (i : Nat) : JSVal :=
  (heapGet s (arrId value)).getD i JSVal.undef

/-- Model of one invocation of the debounced `triggerChange` (lodash
`_debounce(this.onChange.bind(this), 200)`, trailing edge): restart the
timer to fire 200 after the current instant `t`, remembering the latest
argument. -/
def trigger (t : Nat) (s : BaseState) (noValidate : Bool) : BaseState :=
  { s with pending := some (t + 200, noValidate) }

/-- `onChange(noValidate)`: flip `pristine` unless validation is
suppressed, then emit `componentChange` when an event hub was supplied. -/
def onChange (s : BaseState) (noValidate : Bool) : BaseState :=
  let s := if noValidate then s else { s with pristine := false }
  if s.hasEvents then
    { s with emissions := s.emissions ++ [⟨s.value, !noValidate⟩] }
  else s

/-- `updateValue(noValidate)` at instant `t`: remember the previous data
value and its falsy-but-not-nullish flag, write `getValue()` into the data
object, and invoke the debounced `triggerChange` unless the value is
unchanged (strict equality) or the falsy-guard suppresses it. -/
def updateValue (t : Nat) (s : BaseState) (noValidate : Bool) : BaseState :=
  let value := dataGet s
  let falsey := !truthy value && !(value = JSVal.null) && !(value = JSVal.undef)
  let r := getValue s
  let s := dataSet r.2 r.1
  let changed := !(value = r.1)
  if !changed then s
  else if falsey then
    (if truthy r.1 then trigger t s noValidate else s)
  else trigger t s noValidate

/-- `setValue(value, noUpdate, noValidate)` at instant `t`: no-op unless
input-bound; cache the value, distribute it over the rendered inputs
(`setValueAt(i, isArray ? value[i] : value)` for each index of
`this.inputs`), then run `updateValue` unless suppressed. -/
def setValue (t : Nat) (s : BaseState) (value : JSVal)
    (noUpdate noValidate : Bool) : BaseState :=
  if s.componentInput = false then s
  else
    let s1 := { s with value := value }
    let s2 := (List.range s1.inputs.length).foldl
      (fun st i => setValueAt st i (if isArrayV value then elemAt st value i else value)) s1
    if noUpdate then s2 else updateValue t s2 noValidate

/-- The timer backing the debounced `triggerChange` firing: when the
current instant has reached a pending deadline, the debounced `onChange`
runs (with the latest recorded argument) and the timer is cleared. -/
def debFire (t : Nat) (s : BaseState) : BaseState :=
  match s.pending with
  | some (d, nv) => if d ≤ t then onChange { s with pending := none } nv else s
  | none => s

/-- End of a quiet period: a still-pending debounced notification fires. -/
def quiesce (s : BaseState) : BaseState :=
  match s.pending with
  | some (_, nv) => onChange { s with pending := none } nv
  | none => s

/-- One user-driven update at instant `t`: any due debounce timer fires,
the (single) rendered input receives the newly typed content `v`, and the
change event runs `updateValue()`. -/
def runCall (s : BaseState) (c : Nat × JSVal) : BaseState :=
  let s := debFire c.1 s
  let s := { s with inputs := [c.2] }
  updateValue c.1 s false

/-- A burst of user-driven updates, processed in call order. -/
def runCalls (s : BaseState) (cs : List (Nat × JSVal)) : BaseState :=
  cs.foldl runCall s

/-- `addNewValue()`: a falsy data entry (absent, `null`, `undefined`, or a
falsy scalar) is replaced by a fresh empty array; a non-array entry is then
wrapped into a fresh one-element array; finally one computed default value
is pushed onto the (now guaranteed) array in place.  The final match arm
for a non-array entry is unreachable after the two guards. -/
def addNewValue (s : BaseState) : BaseState :=
  let s1 :=
    if truthy (dataGet s) = false then
      let r := allocArr s []
      dataSet r.2 r.1
    else s
  let s2 :=
    if isArrayV (dataGet s1) = false then
      let r := allocArr s1 [dataGet s1]
      dataSet r.2 r.1
    else s1
  match dataGet s2 with
  | JSVal.arr id => heapSet s2 id (heapGet s2 id ++ [defaultValue s2])
  | _ => s2

/-- `addEventListener(obj, evt, func)`: record `{type: evt, func}` in
`this.eventHandlers` and attach the callback to the node (every modelled
node supports `addEventListener`). -/
def addEventListener (s : BaseState) (node : Nat) (evt : String) (func : Nat) : BaseState :=
  { s with eventHandlers := s.eventHandlers ++ [⟨evt, func⟩],
           nodeListeners := s.nodeListeners ++ [(node, some evt, func)] }

/-- Attach a freshly created closure (new callback identifier) to a node,
as the arrow functions passed to `addEventListener` inside
`addInput`/`addButton`/`removeButton` do. -/
def freshListener (s : BaseState) (node : Nat) (evt : String) : BaseState :=
  addEventListener { s with nextCb := s.nextCb + 1 } node evt s.nextCb

/-- One loop iteration of `buildRows`: `createInput(td)` creates a fresh
input element (initial `.value` is `''`), and `addInput` pushes it onto
`this.inputs`, wires the change-event and keypress listeners, and — since
the data object owns the key — re-runs `setValue(this.data[key], true)`
over all inputs added so far. -/
def createInputStep (s : BaseState) : BaseState :=
  let node := s.nextNode
  let s := { s with nextNode := node + 1 }
  let s := { s with inputs := s.inputs ++ [JSVal.str ""] }
  let s := freshListener s node "change"
  let s := freshListener s node "keypress"
  if dataHasKey s then setValue 0 s (dataGet s) true false else s

/-- `addButton()` / `removeButton(index)`: a fresh button element with a
click listener registered through `addEventListener`. -/
def buttonStep (s : BaseState) : BaseState :=
  freshListener { s with nextNode := s.nextNode + 1 } s.nextNode "click"

/-- `buildRows()`: clear `this.inputs` and the table body, create one row
(input plus remove button) per element of the data entry, append the
trailing add-another row, and reapply the disabled policy.  The `_each`
iteration is modelled for an array-valued entry, the only shape arising in
the modelled call sites. -/
def buildRows (s : BaseState) : BaseState :=
  let s0 := { s with inputs := [] }
  let elems :=
    match dataGet s0 with
    | JSVal.arr id => heapGet s0 id
    | _ => []
  let s1 := elems.foldl (fun st _ => buttonStep (createInputStep st)) s0
  let s2 := buttonStep s1
  if s2.optionsReadOnly || s2.componentDisabled then { s2 with disabledFlag := true } else s2

/-- `addValue()`: `addNewValue()` followed by a full row rebuild. -/
def addValue (s : BaseState) : BaseState :=
  buildRows (addNewValue s)

/-- `removeValue(index)`: when the data object owns the key, splice one
element out of the array entry in place (a non-array entry would make the
JavaScript `splice` call throw; that shape is unreachable from the
modelled call sites); then rebuild the rows. -/
def removeValue (s : BaseState) (index : Nat) : BaseState :=
  let s1 :=
    if dataHasKey s then
      match dataGet s with
      | JSVal.arr id => heapSet s id ((heapGet s id).eraseIdx index)
      | _ => s
    else s
  buildRows s1

/-- Modelled from the spec: the host-supplied event hub (§4.2, an external
collaborator) keeps an ordered registry of `(event, callback)`
registrations; `on` appends one and `off` removes the first matching one,
skipping silently when none matches. -/
def hubOff : List (String × Nat) → String → Nat → List (String × Nat)
  | [], _, _ => []
  | r :: rest, t, cb => if r = (t, cb) then rest else r :: hubOff rest t cb

/-- `on(event, cb, internal)`: no-op without a hub; otherwise record
`{type: 'formio.'+event, listener, internal}` and register on the hub. -/
def onBus (s : BaseState) (event : String) (cb : Nat) (internal : Bool) : BaseState :=
  if s.hasEvents = false then s
  else
    { s with
        eventListeners := s.eventListeners ++ [⟨"formio." ++ event, cb, internal⟩],
        hub := s.hub ++ [("formio." ++ event, cb)] }

/-- Removal of a raw listener from a node: deregister the first exactly
matching (node, event name, callback) attachment, skipping when none
matches (as `removeEventListener` does). -/
def rawOff : List RawReg → Nat → Option String → Nat → List RawReg
  | [], _, _, _ => []
  | r :: rest, node, evt, cb =>
      if r = (node, evt, cb) then rest else r :: rawOff rest node evt cb

/-- `destroy(all)`: release the input mask if attached (external, no
modelled state), deregister from the hub every recorded logical listener
that is internal — or every one when `all` is truthy — and then, for every
recorded raw handler, call `window.removeEventListener(handler.event,
handler.func)`.  The handler records were stored as `{type, func}`, so
`handler.event` is `undefined` (`none`), and the call targets `window`
rather than the node the listener was attached to; neither registration
array is cleared. -/
def destroy (s : BaseState) (all : Bool) : BaseState :=
  let hub1 := s.eventListeners.foldl
    (fun h l => if all || l.internal then hubOff h l.type l.listener else h) s.hub
  let s1 := { s with hub := hub1 }
  let raw1 := s1.eventHandlers.foldl
    (fun r h => rawOff r windowNode none h.func) s1.nodeListeners
  { s1 with nodeListeners := raw1 }

/-- A script or stylesheet resource descriptor passed to `requireLibrary`
(a plain string becomes `{type: 'script', src}`). -/
inductive LibRes where
  | script (src : String)
  | styles (src : String)
deriving Repr, DecidableEq

/-- An element injected into the document head by `requireLibrary`. -/
def injectedElem : LibRes → String × String
  | .script src => ("script", src)
  | .styles src => ("link", src)

/-- Process-wide state of the external-library loader:
`registry` maps a library name to the identifier of its shared ready
future, `injections` lists the elements appended to the document head,
`windowProps` are the global properties present on `window`, `callbacks`
the installed `<name>Callback` globals, `resolved` the futures already
resolved, and `polls` the libraries with an active polling timer. -/
structure LoaderState where
  registry : List (String × Nat)
  nextFuture : Nat
  injections : List (String × String)
  windowProps : List String
  callbacks : List String
  resolved : List Nat
  polls : List String
deriving Repr, DecidableEq

/-- `BaseComponent.requireLibrary(name, property, src, polling)`: when the
name is not yet registered, create the registry entry with a fresh shared
ready future, install the global callback unless polling or already
present, and either resolve immediately when the plugin already exists on
`window` or inject every resource element and (when polling) start the
periodic check.  In every case the entry's ready future is returned. -/
def requireLibrary (st : LoaderState) (name property : String)
    (src : List LibRes) (polling : Bool) : LoaderState × Nat :=
  match assocGet st.registry name with
  | some fid => (st, fid)
  | none =>
      let fid := st.nextFuture
      let st := { st with registry := (name, fid) :: st.registry, nextFuture := fid + 1 }
      let st :=
        if !polling && !(st.callbacks.contains name) then
          { st with callbacks := st.callbacks ++ [name] }
        else st
      if st.windowProps.contains property then
        ({ st with resolved := st.resolved ++ [fid] }, fid)
      else
        let st := { st with injections := st.injections ++ src.map injectedElem }
        let st := if polling then { st with polls := st.polls ++ [name] } else st
        (st, fid)

/-- Whether a change both registers as changed and escapes the falsy-guard
of `updateValue`, i.e. the debounced notification is invoked. -/
def guardPass (prev next : JSVal) : Bool :=
  truthy prev || prev = JSVal.null || prev = JSVal.undef || truthy next

/-- A burst of typed values each of which changes the data value and
escapes the falsy-guard (so every `updateValue` call invokes the debounced
`triggerChange`). -/
def chainOk (prev : JSVal) : List (Nat × JSVal) → Bool
  | [] => true
  | (_, v) :: rest => !(v = prev) && guardPass prev v && chainOk v rest

/-- The `null`/`undefined`-to-default substitution performed by
`setValueAt` before assigning an input's value. -/
def coerceVal (s : BaseState) (v : JSVal) : JSVal :=
  if v = JSVal.null ∨ v = JSVal.undef then defaultValue s else v

/-- A freshly constructed single-value text component bound to key `k`
with an empty shared data object and host event hub attached. -/
def ex0 : BaseState where
  componentInput := true
  componentMultiple := false
  componentKey := "k"
  componentDefaultValue := JSVal.undef
  componentDisabled := false
  optionsReadOnly := false
  hasEvents := true
  data := []
  heap := []
  nextId := 0
  value := JSVal.null
  inputs := []
  pristine := true
  pending := none
  emissions := []
  eventListeners := []
  eventHandlers := []
  hub := []
  nodeListeners := []
  nextNode := 1
  nextCb := 0
  tbody := true
  disabledFlag := false

/-- A built single-value component: one rendered input, key present in the
data object holding the empty string. -/
def exSingle : BaseState :=
  { ex0 with data := [("k", JSVal.str "")], inputs := [JSVal.str ""] }

/-- A single-value component whose heap holds the two-element array
`["a", "b"]` behind reference 0, used as a sequence argument. -/
def exArrArg : BaseState :=
  { ex0 with data := [("k", JSVal.str "")], inputs := [JSVal.str ""],
             heap := [(0, [JSVal.str "a", JSVal.str "b"])], nextId := 1 }

/-- An input-bound component with two rendered rows whose heap holds the
one-element array `["a"]` behind reference 0. -/
def exTwoRows : BaseState :=
  { ex0 with data := [("k", JSVal.str "")],
             inputs := [JSVal.str "", JSVal.str ""],
             heap := [(0, [JSVal.str "a"])], nextId := 1 }

/-- A component whose data entry holds the falsy scalar `0`. -/
def exFalsyScalar : BaseState :=
  { ex0 with data := [("k", JSVal.num 0)] }

/-- A component whose data entry holds the truthy scalar `"x"`. -/
def exTruthyScalar : BaseState :=
  { ex0 with data := [("k", JSVal.str "x")], inputs := [JSVal.str "y"] }

/-- A multiple-value component whose data entry holds the array
`["a", "b"]` behind reference 0. -/
def exMultiple : BaseState :=
  { ex0 with componentMultiple := true,
             data := [("tags", JSVal.arr 0)], componentKey := "tags",
             heap := [(0, [JSVal.str "a", JSVal.str "b"])], nextId := 1 }

/-- A component that has attached one raw `change` listener (callback 7)
to input node 1 through `addEventListener`, and registered one internal
and one external logical listener on the hub. -/
def exListeners : BaseState :=
  { ex0 with
      eventHandlers := [⟨"change", 7⟩],
      nodeListeners := [(1, some "change", 7)],
      eventListeners := [⟨"formio.componentChange", 3, true⟩, ⟨"formio.componentChange", 4, false⟩],
      hub := [("formio.componentChange", 3), ("formio.componentChange", 4)] }

/-- A single-value component whose data entry holds `""` while the input
displays `0`: the next `updateValue()` changes the value but is suppressed
by the falsy-guard. -/
def exFalsyGuard : BaseState :=
  { ex0 with data := [("k", JSVal.str "")], inputs := [JSVal.num 0] }

/-- The (data object, heap, key) core of a component state: the part of
the state that row rebuilding must leave untouched. -/
def coreProj (st : BaseState) : List (String × JSVal) × List (Nat × List JSVal) × String :=
  (st.data, st.heap, st.componentKey)

/-- An empty external-library loader registry. -/
def exLoader : LoaderState where
  registry := []
  nextFuture := 0
  injections := []
  windowProps := []
  callbacks := []
  resolved := []
  polls := []

end FormioBase

namespace FormioBase

/-! Helper lemmas shared by the claim theorems. -/

theorem assocGet_upd_self {κ α : Type} [DecidableEq κ] (l : List (κ × α)) (k : κ) (v : α) :
    assocGet (assocUpd l k v) k = some v := by
  induction l with
  | nil => simp [assocUpd, assocGet]
  | cons p rest ih =>
      by_cases h : p.1 = k
      · simp [assocUpd, assocGet, h]
      · simp [assocUpd, assocGet, h, ih]

theorem dataGet_dataSet (s : BaseState) (v : JSVal) : dataGet (dataSet s v) = v := by
  simp [dataGet, dataSet, assocGet_upd_self]

theorem setValueAt_eq (s : BaseState) (i : Nat) (v : JSVal) :
    setValueAt s i v = { s with inputs := s.inputs.set i (coerceVal s v) } := rfl

theorem set_append_len {α : Type} (a : List α) (b : List α) (n : Nat) (x : α)
    (h : a.length = n) : (a ++ b).set n x = a ++ b.set 0 x := by
  subst h
  induction a with
  | nil => simp
  | cons y a ih => simp [List.set, ih]

theorem drop_eq_cons {α : Type} (l : List α) (n : Nat) (h : n < l.length) (d : α) :
    l.drop n = l.getD n d :: l.drop (n + 1) := by
  induction l generalizing n with
  | nil => simp at h
  | cons y t ih =>
      cases n with
      | zero => simp [List.getD]
      | succ m =>
          have hm : m < t.length := by simpa using h
          simpa [List.getD] using ih m hm

/-- The input contents produced by distributing a value over the first `n`
rows, mirroring `setValueAt(i, isArray ? value[i] : value)`. -/
def distInputs (s : BaseState) (v : JSVal) (n : Nat) : List JSVal :=
  (List.range n).map (fun i => coerceVal s (if isArrayV v then elemAt s v i else v))

theorem distInputs_length (s : BaseState) (v : JSVal) (n : Nat) :
    (distInputs s v n).length = n := by simp [distInputs]

theorem distInputs_succ (s : BaseState) (v : JSVal) (n : Nat) :
    distInputs s v (n + 1)
      = distInputs s v n ++ [coerceVal s (if isArrayV v then elemAt s v n else v)] := by
  simp [distInputs, List.range_succ]

/-- The `for (let i in this.inputs)` loop of `setValue`, characterised:
after the first `n` iterations the first `n` inputs hold the distributed
(and default-substituted) values and the rest are untouched. -/
theorem setValue_loop_spec (s : BaseState) (v : JSVal) :
    ∀ n, n ≤ s.inputs.length →
    (List.range n).foldl
        (fun st i => setValueAt st i (if isArrayV v then elemAt st v i else v)) s
      = { s with inputs := distInputs s v n ++ s.inputs.drop n } := by
  intro n
  induction n with
  | zero => intro _; simp [distInputs]
  | succ m ih =>
      intro h
      have hm : m ≤ s.inputs.length := Nat.le_of_succ_le h
      have hlt : m < s.inputs.length := Nat.lt_of_succ_le h
      rw [List.range_succ, List.foldl_append, ih hm, List.foldl_cons, List.foldl_nil]
      have h1 : setValueAt { s with inputs := distInputs s v m ++ s.inputs.drop m } m (if isArrayV v then elemAt { s with inputs := distInputs s v m ++ s.inputs.drop m } v m else v) = { s with inputs := (distInputs s v m ++ s.inputs.drop m).set m (coerceVal s (if isArrayV v then elemAt s v m else v)) } := rfl
      rw [h1]
      have h2 : (distInputs s v m ++ s.inputs.drop m).set m (coerceVal s (if isArrayV v then elemAt s v m else v)) = distInputs s v (m + 1) ++ s.inputs.drop (m + 1) := by
        rw [set_append_len _ _ _ _ (distInputs_length s v m),
            drop_eq_cons s.inputs m hlt JSVal.undef, distInputs_succ]
        simp
      rw [h2]

/-- `setValue` with `noUpdate`: caches the value and distributes it over
the rendered inputs. -/
theorem setValue_noUpdate_eq (t : Nat) (s : BaseState) (v : JSVal) (nv : Bool)
    (hin : s.componentInput = true) :
    setValue t s v true nv
      = { s with value := v, inputs := distInputs s v s.inputs.length } := by
  have h := setValue_loop_spec { s with value := v } v s.inputs.length (Nat.le_refl _)
  have hgoal : setValue t s v true nv = (List.range s.inputs.length).foldl (fun st i => setValueAt st i (if isArrayV v then elemAt st v i else v)) { s with value := v } := by
    simp [setValue, hin]
  rw [hgoal, h]
  have hd : ({ s with value := v } : BaseState).inputs.drop ({ s with value := v } : BaseState).inputs.length = ([] : List JSVal) := List.drop_length _
  rw [show distInputs { s with value := v } v ({ s with value := v } : BaseState).inputs.length ++ ({ s with value := v } : BaseState).inputs.drop ({ s with value := v } : BaseState).inputs.length = distInputs s v s.inputs.length ++ ({ s with value := v } : BaseState).inputs.drop ({ s with value := v } : BaseState).inputs.length from rfl, hd]
  simp

theorem setValue_update_eq (t : Nat) (s : BaseState) (v : JSVal) (nv : Bool)
    (hin : s.componentInput = true) :
    setValue t s v false nv = updateValue t (setValue t s v true nv) nv := by
  simp [setValue, hin]

theorem getValue_head (s : BaseState) (w : JSVal) (rest : List JSVal)
    (hin : s.componentInput = true) (hm : s.componentMultiple = false)
    (hi : s.inputs = w :: rest) :
    getValue s = (w, { s with value := w }) := by
  simp [getValue, hin, hm, hi]

theorem getValue_cached (s : BaseState) (hin : s.componentInput = true) :
    (getValue s).2.value = (getValue s).1 := by
  by_cases hm : s.componentMultiple = false
  · cases hi : s.inputs with
    | nil => simp [getValue, hin, hm, hi, allocArr]
    | cons a t => simp [getValue, hin, hm, hi]
  · simp [getValue, hin, hm, allocArr]

/-- `updateValue` touches only the data object, the cached value, the heap
allocator and the pending debounce timer: inputs, schema, emissions and
`pristine` stay. -/
theorem updateValue_frame (t : Nat) (s : BaseState) (nv : Bool) :
    (updateValue t s nv).inputs = s.inputs ∧
    (updateValue t s nv).componentInput = s.componentInput ∧
    (updateValue t s nv).componentMultiple = s.componentMultiple ∧
    (updateValue t s nv).componentKey = s.componentKey ∧
    (updateValue t s nv).componentDefaultValue = s.componentDefaultValue ∧
    (updateValue t s nv).hasEvents = s.hasEvents ∧
    (updateValue t s nv).pristine = s.pristine ∧
    (updateValue t s nv).emissions = s.emissions := by
  refine ⟨?_, ?_, ?_, ?_, ?_, ?_, ?_, ?_⟩
  all_goals unfold updateValue dataSet trigger getValue allocArr
  all_goals try dsimp only
  all_goals repeat' split
  all_goals rfl

theorem updateValue_value (t : Nat) (s : BaseState) (nv : Bool)
    (hin : s.componentInput = true) :
    (updateValue t s nv).value = (getValue s).1 := by
  have h := getValue_cached s hin
  unfold updateValue dataSet trigger
  try dsimp only
  repeat' split
  all_goals exact h

theorem getValue_frame (s : BaseState) :
    (getValue s).2.pending = s.pending ∧
    (getValue s).2.data = s.data ∧
    (getValue s).2.componentKey = s.componentKey ∧
    (getValue s).2.hasEvents = s.hasEvents ∧
    (getValue s).2.emissions = s.emissions ∧
    (getValue s).2.inputs = s.inputs ∧
    (getValue s).2.pristine = s.pristine ∧
    (getValue s).2.componentInput = s.componentInput ∧
    (getValue s).2.componentMultiple = s.componentMultiple := by
  refine ⟨?_, ?_, ?_, ?_, ?_, ?_, ?_, ?_, ?_⟩
  all_goals unfold getValue allocArr
  all_goals try dsimp only
  all_goals repeat' split
  all_goals rfl

/-! Claim theorems. -/

/-- C10: for an input-bound component with `multiple=false` and zero
rendered inputs, `getValue()` returns a fresh empty sequence and caches it
as the instance's `value`; it returns neither `undefined` nor a scalar. -/
theorem c10_get_value_no_inputs (s : BaseState)
    (hin : s.componentInput = true) (hm : s.componentMultiple = false)
    (hi : s.inputs = []) :
    (getValue s).1 = JSVal.arr s.nextId ∧
    heapGet (getValue s).2 s.nextId = [] ∧
    (getValue s).2.value = (getValue s).1 ∧
    isArrayV (getValue s).1 = true ∧
    (getValue s).1 ≠ JSVal.undef := by
  simp [getValue, hin, hm, hi, allocArr, heapGet, assocGet, isArrayV]

/-- Witness for C10 at a freshly constructed (unbuilt) component. -/
theorem c10_get_value_no_inputs_witness :
    (getValue ex0).1 = JSVal.arr ex0.nextId ∧
    heapGet (getValue ex0).2 ex0.nextId = [] ∧
    (getValue ex0).2.value = (getValue ex0).1 ∧
    isArrayV (getValue ex0).1 = true ∧
    (getValue ex0).1 ≠ JSVal.undef :=
  c10_get_value_no_inputs ex0 rfl rfl rfl

/-- C1 counterexample: with a single-value component the claim's
round-trip fails for a sequence value, which is neither `null` nor
`undefined`: `setValue(["a","b"])` distributes element 0 into the single
row, so `getValue()` returns `"a"`, not the sequence itself. -/
theorem c1_counterexample :
    JSVal.arr 0 ≠ JSVal.null ∧ JSVal.arr 0 ≠ JSVal.undef ∧
    exArrArg.componentInput = true ∧ exArrArg.componentMultiple = false ∧
    exArrArg.inputs ≠ [] ∧
    (getValue (setValue 0 exArrArg (JSVal.arr 0) false false)).1 ≠ JSVal.arr 0 := by
  decide

/-- C1 (amended): for an input-bound component with `multiple=false`, at
least one rendered input and a non-sequence value `v` that is neither
`null` nor `undefined`, after `setValue(v)` completes `getValue()` returns
`v` and caches it in the instance's `value` field (which `setValue` itself
also left equal to `v`). -/
theorem c1_scalar_round_trip (t : Nat) (s : BaseState) (v : JSVal) (nu nv : Bool)
    (hin : s.componentInput = true) (hm : s.componentMultiple = false)
    (hne : s.inputs ≠ []) (hv : isArrayV v = false)
    (h0 : v ≠ JSVal.null) (h1 : v ≠ JSVal.undef) :
    (getValue (setValue t s v nu nv)).1 = v ∧
    (getValue (setValue t s v nu nv)).2.value = v ∧
    (setValue t s v nu nv).value = v := by
  obtain ⟨m, hmlen⟩ : ∃ m, s.inputs.length = m + 1 := by
    cases hil : s.inputs with
    | nil => exact absurd hil hne
    | cons a l => exact ⟨l.length, by simp [hil]⟩
  have hco : coerceVal s v = v := by simp [coerceVal, h0, h1]
  have hdist : distInputs s v s.inputs.length = v :: List.replicate m v := by
    simp [distInputs, hv, hco, hmlen, List.replicate_succ]
  have hs2 : setValue t s v true nv
      = { s with value := v, inputs := v :: List.replicate m v } := by
    rw [setValue_noUpdate_eq t s v nv hin, hdist]
  have hgv := getValue_head { s with value := v, inputs := v :: List.replicate m v } v
    (List.replicate m v) hin hm rfl
  cases nu with
  | true =>
      refine ⟨?_, ?_, ?_⟩
      · rw [hs2, hgv]
      · rw [hs2, hgv]
      · rw [hs2]
  | false =>
      have hupd : setValue t s v false nv = updateValue t (setValue t s v true nv) nv :=
        setValue_update_eq t s v nv hin
      have hframe := updateValue_frame t (setValue t s v true nv) nv
      have hin3 : (updateValue t (setValue t s v true nv) nv).componentInput = true := by
        rw [hframe.2.1, hs2]; exact hin
      have hm3 : (updateValue t (setValue t s v true nv) nv).componentMultiple = false := by
        rw [hframe.2.2.1, hs2]; exact hm
      have hi3 : (updateValue t (setValue t s v true nv) nv).inputs = v :: List.replicate m v := by
        rw [hframe.1, hs2]
      have hval3 : (updateValue t (setValue t s v true nv) nv).value = v := by
        have hv3 := updateValue_value t (setValue t s v true nv) nv (by rw [hs2]; exact hin)
        rw [hv3, hs2, hgv]
      have hg := getValue_head (updateValue t (setValue t s v true nv) nv) v
        (List.replicate m v) hin3 hm3 hi3
      refine ⟨?_, ?_, ?_⟩
      · rw [hupd, hg]
      · rw [hupd, hg]
      · rw [hupd]; exact hval3

/-- Witness for C1 (amended) at a built single-row component receiving the
scalar `"30"`. -/
theorem c1_scalar_round_trip_witness :
    (getValue (setValue 0 exSingle (JSVal.str "30") false false)).1 = JSVal.str "30" ∧
    (getValue (setValue 0 exSingle (JSVal.str "30") false false)).2.value = JSVal.str "30" ∧
    (setValue 0 exSingle (JSVal.str "30") false false).value = JSVal.str "30" :=
  c1_scalar_round_trip 0 exSingle (JSVal.str "30") false false rfl rfl
    (by decide) rfl (by decide) (by decide)

/-- C2 counterexample: two rendered rows, sequence argument `["a"]` of
length 1.  The claim says row 1 (beyond the sequence length) receives the
whole sequence value; the code hands it `value[1] = undefined`, which
`setValueAt` replaces with the computed default `''`. -/
theorem c2_counterexample :
    exTwoRows.componentInput = true ∧
    isArrayV (JSVal.arr 0) = true ∧
    (heapGet exTwoRows (arrId (JSVal.arr 0))).length = 1 ∧
    exTwoRows.inputs.length = 2 ∧
    (setValue 0 exTwoRows (JSVal.arr 0) true false).inputs.getD 1 JSVal.undef = JSVal.str "" ∧
    (setValue 0 exTwoRows (JSVal.arr 0) true false).inputs.getD 1 JSVal.undef ≠ JSVal.arr 0 := by
  decide

/-- C2 (amended): for an input-bound component, `setValue` with a sequence
value writes element `i` of the sequence to rendered row `i`
(`setValueAt` substituting the computed default whenever the element is
`null`/`undefined`), and every row whose index is beyond the sequence
length receives the computed default value (the out-of-range lookup yields
`undefined`); with a non-sequence value every row receives that same
scalar (again default-substituted when `null`/`undefined`). -/
theorem c2_distribution (t : Nat) (s : BaseState) (v : JSVal) (nu nv : Bool) (i : Nat)
    (hin : s.componentInput = true) (hi : i < s.inputs.length) :
    ((setValue t s v nu nv).inputs.getD i JSVal.undef
        = if isArrayV v then coerceVal s (elemAt s v i) else coerceVal s v) ∧
    (isArrayV v = true → (heapGet s (arrId v)).length ≤ i →
        (setValue t s v nu nv).inputs.getD i JSVal.undef = defaultValue s) := by
  have hinp : (setValue t s v nu nv).inputs = distInputs s v s.inputs.length := by
    cases nu with
    | true => rw [setValue_noUpdate_eq t s v nv hin]
    | false =>
        rw [setValue_update_eq t s v nv hin,
            (updateValue_frame t (setValue t s v true nv) nv).1,
            setValue_noUpdate_eq t s v nv hin]
  have hget : (distInputs s v s.inputs.length).getD i JSVal.undef
      = coerceVal s (if isArrayV v then elemAt s v i else v) := by
    simp [distInputs, List.getD, hi]
  constructor
  · rw [hinp, hget, apply_ite (coerceVal s)]
  · intro ha hlen
    rw [hinp, hget, ha]
    have : elemAt s v i = JSVal.undef := by
      simp [elemAt, List.getD, List.getElem?_eq_none hlen]
    simp [this, coerceVal]

/-- Witness for C2 (amended) at the two-row component with sequence
argument `["a"]`, row 0 (in range) and implicitly row-bound hypotheses. -/
theorem c2_distribution_witness :
    ((setValue 0 exTwoRows (JSVal.arr 0) true false).inputs.getD 0 JSVal.undef
        = if isArrayV (JSVal.arr 0) then coerceVal exTwoRows (elemAt exTwoRows (JSVal.arr 0) 0)
          else coerceVal exTwoRows (JSVal.arr 0)) ∧
    (isArrayV (JSVal.arr 0) = true → (heapGet exTwoRows (arrId (JSVal.arr 0))).length ≤ 0 →
        (setValue 0 exTwoRows (JSVal.arr 0) true false).inputs.getD 0 JSVal.undef
          = defaultValue exTwoRows) :=
  c2_distribution 0 exTwoRows (JSVal.arr 0) true false 0 rfl (by decide)

/-- C3: `updateValue()` writes `getValue()` into the data object at the
component's key; starting with no pending notification, the debounced
change notification ends up scheduled exactly when the value changed under
reference/primitive equality and the falsy-guard does not apply (previous
value falsy but neither `null` nor `undefined`, and new value also
falsy). -/
theorem c3_update_value_notification (t : Nat) (s : BaseState) (nv : Bool)
    (hp : s.pending = none) :
    dataGet (updateValue t s nv) = (getValue s).1 ∧
    ((updateValue t s nv).pending ≠ none ↔
      (dataGet s ≠ (getValue s).1 ∧
        ¬(truthy (dataGet s) = false ∧ dataGet s ≠ JSVal.null ∧ dataGet s ≠ JSVal.undef ∧
          truthy (getValue s).1 = false))) := by
  have hfrp : (getValue s).2.pending = none := by
    rw [(getValue_frame s).1]; exact hp
  constructor
  · unfold updateValue dataSet trigger
    try dsimp only
    repeat' split
    all_goals simp [dataGet, assocGet_upd_self]
  · unfold updateValue dataSet trigger
    try dsimp only
    repeat' split
    all_goals try simp_all
    all_goals tauto

theorem foldl_pres {α β γ : Type} (p : α → γ) (f : α → β → α)
    (h : ∀ a b, p (f a b) = p a) : ∀ (l : List β) (a : α), p (l.foldl f a) = p a := by
  intro l
  induction l with
  | nil => intro a; rfl
  | cons x xs ih => intro a; rw [List.foldl_cons, ih, h]

theorem setValue_noUpdate_core (t : Nat) (s : BaseState) (v : JSVal) (nv : Bool) :
    coreProj (setValue t s v true nv) = coreProj s := by
  by_cases hin : s.componentInput = true
  · rw [setValue_noUpdate_eq t s v nv hin]; rfl
  · have hin' : s.componentInput = false := by simpa using hin
    simp [setValue, hin']

theorem createInputStep_core (s : BaseState) : coreProj (createInputStep s) = coreProj s := by
  unfold createInputStep freshListener addEventListener
  dsimp only
  split
  · exact setValue_noUpdate_core 0 _ _ false
  · rfl

theorem buildRows_core (s : BaseState) : coreProj (buildRows s) = coreProj s := by
  have hstep : ∀ (st : BaseState) (x : JSVal),
      coreProj (buttonStep (createInputStep st)) = coreProj st := fun st _ =>
    createInputStep_core st
  have hfold := foldl_pres coreProj (fun st (_ : JSVal) => buttonStep (createInputStep st)) hstep
  unfold buildRows
  dsimp only
  split
  · exact hfold _ _
  · exact hfold _ _

theorem dataGet_core {s1 s2 : BaseState} (h : coreProj s1 = coreProj s2) :
    dataGet s1 = dataGet s2 := by
  have h1 : s1.data = s2.data := congrArg (fun p => p.1) h
  have h3 : s1.componentKey = s2.componentKey := congrArg (fun p => p.2.2) h
  unfold dataGet
  rw [h1, h3]

theorem heapGet_core {s1 s2 : BaseState} (h : coreProj s1 = coreProj s2) (id : Nat) :
    heapGet s1 id = heapGet s2 id := by
  have h2 : s1.heap = s2.heap := congrArg (fun p => p.2.1) h
  unfold heapGet
  rw [h2]

theorem addNewValue_arr (s : BaseState) (id : Nat) (hd : dataGet s = JSVal.arr id) :
    addNewValue s = heapSet s id (heapGet s id ++ [defaultValue s]) := by
  simp [addNewValue, hd, truthy, isArrayV]

theorem dataGet_heapSet (s : BaseState) (id : Nat) (x : List JSVal) :
    dataGet (heapSet s id x) = dataGet s := rfl

theorem heapGet_dataSet (s : BaseState) (v : JSVal) (id : Nat) :
    heapGet (dataSet s v) id = heapGet s id := rfl

theorem defaultValue_dataSet (s : BaseState) (v : JSVal) :
    defaultValue (dataSet s v) = defaultValue s := rfl

theorem defaultValue_heapSet (s : BaseState) (id : Nat) (x : List JSVal) :
    defaultValue (heapSet s id x) = defaultValue s := rfl

theorem defaultValue_allocArr (s : BaseState) (x : List JSVal) :
    defaultValue (allocArr s x).2 = defaultValue s := rfl

theorem allocArr_fst (s : BaseState) (x : List JSVal) :
    (allocArr s x).1 = JSVal.arr s.nextId := rfl

theorem heapGet_allocArr_self (s : BaseState) (x : List JSVal) :
    heapGet (allocArr s x).2 s.nextId = x := by
  simp [heapGet, allocArr, assocGet]

theorem heapGet_heapSet (s : BaseState) (id : Nat) (x : List JSVal) :
    heapGet (heapSet s id x) id = x := by
  simp [heapGet, heapSet, assocGet_upd_self]

theorem dataHasKey_of_arr (s : BaseState) (id : Nat) (hd : dataGet s = JSVal.arr id) :
    dataHasKey s = true := by
  unfold dataHasKey
  cases hopt : assocGet s.data s.componentKey with
  | none =>
      exfalso
      rw [dataGet, hopt] at hd
      exact absurd hd (by simp)
  | some w => rfl

theorem eraseIdx_append_last {α : Type} (l : List α) (a : α) :
    (l ++ [a]).eraseIdx l.length = l := by
  induction l with
  | nil => rfl
  | cons x t ih => simp [List.eraseIdx, ih]

/-- C7 counterexample: a data entry holding the falsy scalar `0` is not
coerced into a one-element sequence containing it — the `!this.data[key]`
guard replaces it with a fresh empty sequence, so the scalar is lost and
the resulting sequence is just `['']` (one computed default). -/
theorem c7_counterexample :
    dataGet exFalsyScalar = JSVal.num 0 ∧
    isArrayV (dataGet exFalsyScalar) = false ∧
    dataGet (addNewValue exFalsyScalar) = JSVal.arr 0 ∧
    heapGet (addNewValue exFalsyScalar) 0 = [JSVal.str ""] ∧
    ¬ JSVal.num 0 ∈ heapGet (addNewValue exFalsyScalar) 0 := by
  decide

/-- C7 (amended): `addNewValue()` never raises, and always appends exactly
one computed default value at the end of the (ensured) sequence entry: a
sequence entry is pushed onto in place; a truthy non-sequence scalar is
coerced into a one-element sequence containing that scalar; a falsy entry
— including an absent key, `null`, `undefined`, `''`, `0`, `false` — is
first replaced by a fresh empty sequence (the falsy scalar is discarded
rather than kept). -/
theorem c7_add_new_value (s : BaseState) :
    (∀ id, dataGet s = JSVal.arr id →
      dataGet (addNewValue s) = JSVal.arr id ∧
      heapGet (addNewValue s) id = heapGet s id ++ [defaultValue s]) ∧
    (truthy (dataGet s) = true → isArrayV (dataGet s) = false →
      dataGet (addNewValue s) = JSVal.arr s.nextId ∧
      heapGet (addNewValue s) s.nextId = [dataGet s, defaultValue s]) ∧
    (truthy (dataGet s) = false →
      dataGet (addNewValue s) = JSVal.arr s.nextId ∧
      heapGet (addNewValue s) s.nextId = [defaultValue s]) := by
  refine ⟨?_, ?_, ?_⟩
  · intro id hd
    rw [addNewValue_arr s id hd, dataGet_heapSet, heapGet_heapSet]
    exact ⟨hd, rfl⟩
  · intro ht ha
    simp [addNewValue, ht, ha, dataGet_dataSet, dataGet_heapSet, heapGet_dataSet,
      heapGet_heapSet, heapGet_allocArr_self, allocArr_fst, defaultValue_dataSet,
      defaultValue_allocArr, defaultValue_heapSet]
  · intro ht
    simp [addNewValue, ht, isArrayV, dataGet_dataSet, dataGet_heapSet, heapGet_dataSet,
      heapGet_heapSet, heapGet_allocArr_self, allocArr_fst, defaultValue_dataSet,
      defaultValue_allocArr, defaultValue_heapSet]

/-- Witness for C7 (amended) at a component whose data entry holds the
truthy scalar `"x"`. -/
theorem c7_add_new_value_witness :
    (∀ id, dataGet exTruthyScalar = JSVal.arr id →
      dataGet (addNewValue exTruthyScalar) = JSVal.arr id ∧
      heapGet (addNewValue exTruthyScalar) id
        = heapGet exTruthyScalar id ++ [defaultValue exTruthyScalar]) ∧
    (truthy (dataGet exTruthyScalar) = true → isArrayV (dataGet exTruthyScalar) = false →
      dataGet (addNewValue exTruthyScalar) = JSVal.arr exTruthyScalar.nextId ∧
      heapGet (addNewValue exTruthyScalar) exTruthyScalar.nextId
        = [dataGet exTruthyScalar, defaultValue exTruthyScalar]) ∧
    (truthy (dataGet exTruthyScalar) = false →
      dataGet (addNewValue exTruthyScalar) = JSVal.arr exTruthyScalar.nextId ∧
      heapGet (addNewValue exTruthyScalar) exTruthyScalar.nextId
        = [defaultValue exTruthyScalar]) :=
  c7_add_new_value exTruthyScalar

/-- C6: for a `multiple=true` component whose data entry holds the
sequence `elems` (behind reference `id`), `addValue()` followed by
`removeValue` at the index of the newly added row restores the entry
exactly: same array reference, same contents. -/
theorem c6_add_remove_round_trip (s : BaseState) (id : Nat) (elems : List JSVal)
    (hm : s.componentMultiple = true)
    (hd : dataGet s = JSVal.arr id) (hh : heapGet s id = elems) :
    dataGet (removeValue (addValue s) elems.length) = JSVal.arr id ∧
    heapGet (removeValue (addValue s) elems.length) id = elems := by
  have hadd : coreProj (addValue s) = coreProj (addNewValue s) := buildRows_core _
  have hd1 : dataGet (addValue s) = JSVal.arr id := by
    rw [dataGet_core hadd, addNewValue_arr s id hd, dataGet_heapSet]
    exact hd
  have hh1 : heapGet (addValue s) id = elems ++ [defaultValue s] := by
    rw [heapGet_core hadd, addNewValue_arr s id hd, heapGet_heapSet, hh]
  have hkey : dataHasKey (addValue s) = true := dataHasKey_of_arr _ id hd1
  have hrm : removeValue (addValue s) elems.length
      = buildRows (heapSet (addValue s) id ((heapGet (addValue s) id).eraseIdx elems.length)) := by
    simp [removeValue, hkey, hd1]
  have herase : (heapGet (addValue s) id).eraseIdx elems.length = elems := by
    rw [hh1, eraseIdx_append_last]
  have hcore2 : coreProj (removeValue (addValue s) elems.length)
      = coreProj (heapSet (addValue s) id elems) := by
    rw [hrm, herase]
    exact buildRows_core _
  constructor
  · rw [dataGet_core hcore2, dataGet_heapSet]
    exact hd1
  · rw [heapGet_core hcore2, heapGet_heapSet]

/-- Witness for C6 at a two-element `tags` sequence. -/
theorem c6_add_remove_round_trip_witness :
    dataGet (removeValue (addValue exMultiple) 2) = JSVal.arr 0 ∧
    heapGet (removeValue (addValue exMultiple) 2) 0 = [JSVal.str "a", JSVal.str "b"] :=
  c6_add_remove_round_trip exMultiple 0 [JSVal.str "a", JSVal.str "b"] rfl rfl rfl

theorem hubOff_not_mem (h : List (String × Nat)) (t : String) (cb : Nat)
    (hn : (t, cb) ∉ h) : hubOff h t cb = h := by
  induction h with
  | nil => rfl
  | cons r rest ih =>
      have hr : r ≠ (t, cb) := fun he => hn (he ▸ List.mem_cons_self r rest)
      simp only [hubOff, if_neg hr]
      rw [ih (fun hm => hn (List.mem_cons_of_mem r hm))]

theorem hubOff_append_not_mem (pre l : List (String × Nat)) (t : String) (cb : Nat)
    (hn : (t, cb) ∉ pre) : hubOff (pre ++ l) t cb = pre ++ hubOff l t cb := by
  induction pre with
  | nil => rfl
  | cons r rest ih =>
      have hr : r ≠ (t, cb) := fun he => hn (he ▸ List.mem_cons_self r rest)
      simp only [List.cons_append, hubOff, if_neg hr]
      simp [ih (fun hm => hn (List.mem_cons_of_mem r hm))]

theorem destroyHub_fold (all : Bool) :
    ∀ (recs : List ListenerRec) (pre : List (String × Nat)),
    (∀ r ∈ recs, (all || r.internal) = true → (r.type, r.listener) ∉ pre) →
    (∀ r1 ∈ recs, ∀ r2 ∈ recs, (all || r1.internal) = true → (all || r2.internal) = false →
        (r1.type, r1.listener) ≠ (r2.type, r2.listener)) →
    recs.foldl (fun h l => if all || l.internal then hubOff h l.type l.listener else h)
        (pre ++ recs.map (fun l => (l.type, l.listener)))
      = pre ++ (recs.filter (fun l => !(all || l.internal))).map (fun l => (l.type, l.listener)) := by
  intro recs
  induction recs with
  | nil => intro pre _ _; simp
  | cons r rest ih =>
      intro pre hpre hcross
      by_cases hr : (all || r.internal) = true
      · have hnp : (r.type, r.listener) ∉ pre := hpre r (List.mem_cons_self r rest) hr
        rw [List.map_cons, List.foldl_cons]
        rw [if_pos hr, hubOff_append_not_mem pre _ _ _ hnp]
        rw [show hubOff ((r.type, r.listener) :: rest.map (fun l => (l.type, l.listener))) r.type r.listener = rest.map (fun l => (l.type, l.listener)) from by simp [hubOff]]
        rw [ih pre (fun r' hr' ht => hpre r' (List.mem_cons_of_mem r hr') ht)
          (fun r1 h1 r2 h2 => hcross r1 (List.mem_cons_of_mem r h1) r2 (List.mem_cons_of_mem r h2))]
        have hcond : ¬(all = false ∧ r.internal = false) := by
          rintro ⟨ha, hi⟩
          rw [ha, hi] at hr
          simp at hr
        simp [List.filter_cons, hcond]
      · have hrf : (all || r.internal) = false := by simpa using hr
        rw [List.map_cons, List.foldl_cons, if_neg hr]
        rw [show pre ++ (r.type, r.listener) :: rest.map (fun l => (l.type, l.listener)) = (pre ++ [(r.type, r.listener)]) ++ rest.map (fun l => (l.type, l.listener)) from by simp]
        have hpre' : ∀ r' ∈ rest, (all || r'.internal) = true →
            (r'.type, r'.listener) ∉ pre ++ [(r.type, r.listener)] := by
          intro r' hr' ht hmem
          rcases List.mem_append.mp hmem with hmem1 | hmem2
          · exact hpre r' (List.mem_cons_of_mem r hr') ht hmem1
          · have : (r'.type, r'.listener) = (r.type, r.listener) := by simpa using hmem2
            exact hcross r' (List.mem_cons_of_mem r hr') r (List.mem_cons_self r rest) ht hrf this
        rw [ih (pre ++ [(r.type, r.listener)]) hpre'
          (fun r1 h1 r2 h2 => hcross r1 (List.mem_cons_of_mem r h1) r2 (List.mem_cons_of_mem r h2))]
        have hcond : all = false ∧ r.internal = false := by simpa using hrf
        simp [List.filter_cons, hcond]

theorem destroyHub_noop (all : Bool) :
    ∀ (recs : List ListenerRec) (h : List (String × Nat)),
    (∀ r ∈ recs, (all || r.internal) = true → (r.type, r.listener) ∉ h) →
    recs.foldl (fun acc l => if all || l.internal then hubOff acc l.type l.listener else acc) h
      = h := by
  intro recs
  induction recs with
  | nil => intro h _; rfl
  | cons r rest ih =>
      intro h hn
      rw [List.foldl_cons]
      by_cases hr : (all || r.internal) = true
      · rw [if_pos hr, hubOff_not_mem h _ _ (hn r (List.mem_cons_self r rest) hr)]
        exact ih h (fun r' hr' ht => hn r' (List.mem_cons_of_mem r hr') ht)
      · rw [if_neg hr]
        exact ih h (fun r' hr' ht => hn r' (List.mem_cons_of_mem r hr') ht)

theorem rawOff_not_mem (regs : List RawReg) (node : Nat) (evt : Option String) (cb : Nat)
    (hn : ((node, evt, cb) : RawReg) ∉ regs) : rawOff regs node evt cb = regs := by
  induction regs with
  | nil => rfl
  | cons r rest ih =>
      have hr : r ≠ (node, evt, cb) := fun he => hn (he ▸ List.mem_cons_self r rest)
      simp only [rawOff, if_neg hr]
      rw [ih (fun hm => hn (List.mem_cons_of_mem r hm))]

theorem destroyRaw_noop :
    ∀ (hs : List HandlerRec) (regs : List RawReg),
    (∀ r ∈ regs, r.2.1 ≠ none) →
    hs.foldl (fun acc h => rawOff acc windowNode none h.func) regs = regs := by
  intro hs
  induction hs with
  | nil => intro regs _; rfl
  | cons h rest ih =>
      intro regs hn
      rw [List.foldl_cons]
      have hnm : ((windowNode, none, h.func) : RawReg) ∉ regs := by
        intro hmem
        exact hn _ hmem rfl
      rw [rawOff_not_mem regs _ _ _ hnm]
      exact ih regs hn

theorem destroy_eq (s : BaseState) (all : Bool) :
    destroy s all = { s with
      hub := s.eventListeners.foldl
        (fun h l => if all || l.internal then hubOff h l.type l.listener else h) s.hub,
      nodeListeners := s.eventHandlers.foldl
        (fun r h => rawOff r windowNode none h.func) s.nodeListeners } := rfl

/-- C4: code-bug evaluation.  A component attached one raw `change`
listener (callback 7) to input node 1 via `addEventListener`; after
`destroy` — with either `all` value — that listener is still attached to
the node, because the removal call reads the never-stored `event` field
(yielding `undefined`) and targets `window` instead of the recorded node.
The logical hub registrations are deregistered as the claim states:
with `all` falsy only the internal one, with `all` truthy both. -/
theorem c4_raw_listener_not_removed :
    exListeners.nodeListeners = [(1, some "change", 7)] ∧
    (destroy exListeners false).nodeListeners = [(1, some "change", 7)] ∧
    (destroy exListeners true).nodeListeners = [(1, some "change", 7)] ∧
    (destroy exListeners false).hub = [("formio.componentChange", 4)] ∧
    (destroy exListeners true).hub = [] := by
  decide

/-- C5: calling `destroy` a second time with the same `all` flag changes
nothing: the state (in particular the hub and the raw-listener
registries) after the second call equals the state after the first, so no
registry entry is deregistered twice.  Hypotheses: the hub holds exactly
this instance's recorded registrations (as `on` builds it), no
to-be-removed logical registration shares its `(event, callback)` pair
with a preserved one, and every recorded raw attachment carries a real
event name (as `addEventListener` guarantees). -/
theorem c5_destroy_idempotent (s : BaseState) (all : Bool)
    (h1 : s.hub = s.eventListeners.map (fun l => (l.type, l.listener)))
    (h2 : ∀ l1 ∈ s.eventListeners, ∀ l2 ∈ s.eventListeners,
        (all || l1.internal) = true → (all || l2.internal) = false →
        (l1.type, l1.listener) ≠ (l2.type, l2.listener))
    (h3 : ∀ r ∈ s.nodeListeners, r.2.1 ≠ none) :
    destroy (destroy s all) all = destroy s all := by
  have hhub1 : s.eventListeners.foldl
      (fun h l => if all || l.internal then hubOff h l.type l.listener else h) s.hub
      = (s.eventListeners.filter (fun l => !(all || l.internal))).map
          (fun l => (l.type, l.listener)) := by
    rw [h1]
    have hf := destroyHub_fold all s.eventListeners [] (by simp) h2
    simpa using hf
  have hraw1 : s.eventHandlers.foldl
      (fun r h => rawOff r windowNode none h.func) s.nodeListeners = s.nodeListeners :=
    destroyRaw_noop s.eventHandlers s.nodeListeners h3
  have hd1 : destroy s all = { s with
      hub := (s.eventListeners.filter (fun l => !(all || l.internal))).map
        (fun l => (l.type, l.listener)),
      nodeListeners := s.nodeListeners } := by
    rw [destroy_eq, hhub1, hraw1]
  have hnoop : s.eventListeners.foldl
      (fun h l => if all || l.internal then hubOff h l.type l.listener else h)
      ((s.eventListeners.filter (fun l => !(all || l.internal))).map
        (fun l => (l.type, l.listener)))
      = (s.eventListeners.filter (fun l => !(all || l.internal))).map
          (fun l => (l.type, l.listener)) := by
    apply destroyHub_noop
    intro r hr ht hmem
    obtain ⟨l, hl, hpl⟩ := List.mem_map.mp hmem
    have hlrec : l ∈ s.eventListeners := List.mem_of_mem_filter hl
    have hlkept : (all || l.internal) = false := by
      have := List.of_mem_filter hl
      simpa using this
    exact (h2 r hr l hlrec ht hlkept) hpl.symm
  rw [hd1, destroy_eq]
  dsimp only
  rw [hnoop, hraw1]

/-- Witness for C5 at the component with one internal and one external
logical listener plus one raw listener. -/
theorem c5_destroy_idempotent_witness :
    destroy (destroy exListeners false) false = destroy exListeners false :=
  c5_destroy_idempotent exListeners false rfl (by decide) (by decide)

theorem debFire_skip (t : Nat) (s : BaseState)
    (h : s.pending = none ∨ ∃ d nv, s.pending = some (d, nv) ∧ t < d) :
    debFire t s = s := by
  unfold debFire
  rcases h with h | ⟨d, nv, hd, hlt⟩
  · rw [h]
  · rw [hd]
    try dsimp only
    rw [if_neg (by omega)]

/-- One `updateValue` call that changes the value and escapes the
falsy-guard: the new value is cached, written to the data object, and the
debounced notification is (re)scheduled for 200 after the call. -/
theorem updateValue_trigger (t : Nat) (s : BaseState) (v : JSVal)
    (hin : s.componentInput = true) (hm : s.componentMultiple = false)
    (hi : s.inputs = [v]) (hne : dataGet s ≠ v)
    (hg : guardPass (dataGet s) v = true) :
    updateValue t s false = { s with value := v, data := assocUpd s.data s.componentKey v, pending := some (t + 200, false) } := by
  have hgv : getValue s = (v, { s with value := v }) := getValue_head s v [] hin hm hi
  unfold updateValue
  try dsimp only
  rw [hgv]
  try dsimp only
  repeat' split
  all_goals try rfl
  all_goals exfalso
  all_goals simp_all [guardPass, dataSet, trigger]

/-- One user call at instant `t` before any pending deadline: the typed
value lands in the single input, the data object and cache follow, and the
debounce timer restarts at `t + 200`. -/
theorem runCall_spec (t : Nat) (v : JSVal) (s : BaseState)
    (hin : s.componentInput = true) (hm : s.componentMultiple = false)
    (hp : s.pending = none ∨ ∃ d, s.pending = some (d, false) ∧ t < d)
    (hne : dataGet s ≠ v) (hg : guardPass (dataGet s) v = true) :
    runCall s (t, v) = { s with inputs := [v], value := v, data := assocUpd s.data s.componentKey v, pending := some (t + 200, false) } := by
  have hp' : s.pending = none ∨ ∃ d nv, s.pending = some (d, nv) ∧ t < d :=
    hp.imp id (fun ⟨d, hd, hlt⟩ => ⟨d, false, hd, hlt⟩)
  unfold runCall
  try dsimp only
  rw [debFire_skip t s hp']
  rw [updateValue_trigger t { s with inputs := [v] } v hin hm rfl hne hg]

theorem runCalls_spec (rest : List (Nat × JSVal)) :
    ∀ (c : Nat × JSVal) (s : BaseState) (lo : Nat),
    s.componentInput = true → s.componentMultiple = false →
    (s.pending = none ∨ ∃ d, s.pending = some (d, false) ∧ lo + 200 ≤ d) →
    (∀ x ∈ c :: rest, lo ≤ x.1 ∧ x.1 < lo + 200) →
    chainOk (dataGet s) (c :: rest) = true →
    (runCalls s (c :: rest)).emissions = s.emissions ∧
    (runCalls s (c :: rest)).hasEvents = s.hasEvents ∧
    (runCalls s (c :: rest)).value = ((c :: rest).getLast (List.cons_ne_nil c rest)).2 ∧
    dataGet (runCalls s (c :: rest)) = ((c :: rest).getLast (List.cons_ne_nil c rest)).2 ∧
    (runCalls s (c :: rest)).pending
      = some (((c :: rest).getLast (List.cons_ne_nil c rest)).1 + 200, false) := by
  induction rest with
  | nil =>
      intro c s lo hin hm hp hw hch
      obtain ⟨t, v⟩ := c
      have hflat : (!(v = dataGet s) && guardPass (dataGet s) v && chainOk v []) = true := hch
      rw [Bool.and_eq_true, Bool.and_eq_true] at hflat
      have hch2 : ¬(v = dataGet s) ∧ guardPass (dataGet s) v = true :=
        ⟨by simpa using hflat.1.1, hflat.1.2⟩
      have hne : dataGet s ≠ v := fun h => hch2.1 h.symm
      have hwhead := hw (t, v) (List.mem_cons_self _ _)
      have hp' : s.pending = none ∨ ∃ d, s.pending = some (d, false) ∧ t < d :=
        hp.imp id (fun ⟨d, hd, hle⟩ => ⟨d, hd, by omega⟩)
      have hrc : runCalls s [(t, v)] = runCall s (t, v) := rfl
      rw [hrc, runCall_spec t v s hin hm hp' hne hch2.2]
      refine ⟨rfl, rfl, rfl, ?_, rfl⟩
      simp [dataGet, assocGet_upd_self]
  | cons c2 rest2 ih =>
      intro c s lo hin hm hp hw hch
      obtain ⟨t, v⟩ := c
      have hflat : (!(v = dataGet s) && guardPass (dataGet s) v && chainOk v (c2 :: rest2)) = true := hch
      rw [Bool.and_eq_true, Bool.and_eq_true] at hflat
      have hch2 : (¬(v = dataGet s) ∧ guardPass (dataGet s) v = true)
          ∧ chainOk v (c2 :: rest2) = true :=
        ⟨⟨by simpa using hflat.1.1, hflat.1.2⟩, hflat.2⟩
      have hne : dataGet s ≠ v := fun h => hch2.1.1 h.symm
      have hwhead := hw (t, v) (List.mem_cons_self _ _)
      have hp' : s.pending = none ∨ ∃ d, s.pending = some (d, false) ∧ t < d :=
        hp.imp id (fun ⟨d, hd, hle⟩ => ⟨d, hd, by omega⟩)
      have hstep := runCall_spec t v s hin hm hp' hne hch2.1.2
      have hsplit : runCalls s ((t, v) :: c2 :: rest2)
          = runCalls (runCall s (t, v)) (c2 :: rest2) := rfl
      have hd1 : dataGet { s with inputs := [v], value := v, data := assocUpd s.data s.componentKey v, pending := some (t + 200, false) } = v := by
        simp [dataGet, assocGet_upd_self]
      have hout := ih c2 { s with inputs := [v], value := v, data := assocUpd s.data s.componentKey v, pending := some (t + 200, false) } lo hin hm
        (Or.inr ⟨t + 200, rfl, by omega⟩)
        (fun x hx => hw x (List.mem_cons_of_mem _ hx))
        (by rw [hd1]; exact hch2.2)
      rw [hsplit, hstep]
      have hlast : ((t, v) :: c2 :: rest2).getLast (List.cons_ne_nil _ _)
          = (c2 :: rest2).getLast (List.cons_ne_nil c2 rest2) :=
        List.getLast_cons (List.cons_ne_nil c2 rest2)
      rw [hlast]
      exact ⟨hout.1, hout.2.1, hout.2.2.1, hout.2.2.2.1, hout.2.2.2.2⟩

/-- C8 counterexample: one `updateValue()` call (N = 1) whose value changes
from `""` to `0` within a single debounce window produces zero
`componentChange` emissions — the falsy-guard suppresses the notification
— where the claim demands exactly one. -/
theorem c8_counterexample :
    exFalsyGuard.hasEvents = true ∧
    dataGet exFalsyGuard ≠ JSVal.num 0 ∧
    (quiesce (runCalls exFalsyGuard [(0, JSVal.num 0)])).emissions.length = 0 := by
  decide

/-- C8 (amended): for `N ≥ 1` calls (a head call plus a tail) within one
debounce window, each changing the value and escaping the falsy-guard,
exactly one `componentChange` is emitted after the quiet period, carrying
the value of the last call; the data object and cache reflect the calls
processed in order, ending at the last value. -/
theorem c8_debounce_coalesce (s : BaseState) (c : Nat × JSVal)
    (rest : List (Nat × JSVal)) (lo : Nat)
    (hin : s.componentInput = true) (hm : s.componentMultiple = false)
    (hev : s.hasEvents = true) (hp : s.pending = none) (he : s.emissions = [])
    (hw : ∀ x ∈ c :: rest, lo ≤ x.1 ∧ x.1 < lo + 200)
    (hch : chainOk (dataGet s) (c :: rest) = true) :
    (quiesce (runCalls s (c :: rest))).emissions
      = [⟨((c :: rest).getLast (List.cons_ne_nil c rest)).2, true⟩] ∧
    dataGet (runCalls s (c :: rest)) = ((c :: rest).getLast (List.cons_ne_nil c rest)).2 ∧
    (runCalls s (c :: rest)).value = ((c :: rest).getLast (List.cons_ne_nil c rest)).2 := by
  have hout := runCalls_spec rest c s lo hin hm (Or.inl hp) hw hch
  refine ⟨?_, hout.2.2.2.1, hout.2.2.1⟩
  unfold quiesce
  rw [hout.2.2.2.2]
  unfold onChange
  try dsimp only
  simp [hout.1, hout.2.1, hout.2.2.1, hev, he]

/-- Witness for C8 (amended): two calls at instants 0 and 50 typing `"a"`
then `"b"` produce exactly one emission carrying `"b"`. -/
theorem c8_debounce_coalesce_witness :
    (quiesce (runCalls exSingle [(0, JSVal.str "a"), (50, JSVal.str "b")])).emissions
      = [⟨(([(0, JSVal.str "a"), (50, JSVal.str "b")]).getLast
            (List.cons_ne_nil _ _)).2, true⟩] ∧
    dataGet (runCalls exSingle [(0, JSVal.str "a"), (50, JSVal.str "b")])
      = (([(0, JSVal.str "a"), (50, JSVal.str "b")]).getLast (List.cons_ne_nil _ _)).2 ∧
    (runCalls exSingle [(0, JSVal.str "a"), (50, JSVal.str "b")]).value
      = (([(0, JSVal.str "a"), (50, JSVal.str "b")]).getLast (List.cons_ne_nil _ _)).2 :=
  c8_debounce_coalesce exSingle (0, JSVal.str "a") [(50, JSVal.str "b")] 0
    rfl rfl rfl rfl rfl (by decide) (by decide)

theorem requireLibrary_hit (st : LoaderState) (name property : String)
    (src : List LibRes) (polling : Bool) (fid : Nat)
    (hhit : assocGet st.registry name = some fid) :
    requireLibrary st name property src polling = (st, fid) := by
  unfold requireLibrary
  rw [hhit]

theorem requireLibrary_fresh (st : LoaderState) (name property : String)
    (src : List LibRes) (polling : Bool)
    (hfresh : assocGet st.registry name = none) :
    (requireLibrary st name property src polling).1.registry
        = (name, st.nextFuture) :: st.registry ∧
    (requireLibrary st name property src polling).2 = st.nextFuture := by
  constructor
  all_goals unfold requireLibrary
  all_goals rw [hfresh]
  all_goals try dsimp only
  all_goals repeat' split
  all_goals rfl

theorem assocGet_none_countP (l : List (String × Nat)) (k : String)
    (h : assocGet l k = none) : l.countP (fun e => e.1 == k) = 0 := by
  induction l with
  | nil => rfl
  | cons p rest ih =>
      unfold assocGet at h
      by_cases hp : p.1 = k
      · rw [if_pos hp] at h
        exact Option.noConfusion h
      · rw [if_neg hp] at h
        simp [List.countP_cons, hp, ih h]

/-- C9: the first `requireLibrary` call for a fresh name creates exactly
one registry entry holding the shared ready future that the call returns;
any subsequent call for the same name — whatever its other arguments —
leaves the whole loader state untouched (so no further injection, no
callback/polling setup, no registry mutation) and returns the identical
future. -/
theorem c9_require_library_shared (st : LoaderState) (name property : String)
    (src : List LibRes) (polling : Bool)
    (property2 : String) (src2 : List LibRes) (polling2 : Bool)
    (hfresh : assocGet st.registry name = none) :
    (assocGet (requireLibrary st name property src polling).1.registry name
        = some (requireLibrary st name property src polling).2) ∧
    ((requireLibrary st name property src polling).1.registry.countP
        (fun e => e.1 == name) = 1) ∧
    (requireLibrary (requireLibrary st name property src polling).1 name
        property2 src2 polling2
      = ((requireLibrary st name property src polling).1,
         (requireLibrary st name property src polling).2)) := by
  obtain ⟨hreg, hfut⟩ := requireLibrary_fresh st name property src polling hfresh
  have hget : assocGet (requireLibrary st name property src polling).1.registry name
      = some (requireLibrary st name property src polling).2 := by
    rw [hreg, hfut]
    simp [assocGet]
  refine ⟨hget, ?_, ?_⟩
  · rw [hreg]
    simp [List.countP_cons, assocGet_none_countP st.registry name hfresh]
  · exact requireLibrary_hit _ name property2 src2 polling2 _ hget

/-- Witness for C9: a first and second request for `signaturepad` against
the empty loader registry. -/
theorem c9_require_library_shared_witness :
    (assocGet (requireLibrary exLoader "signaturepad" "SignaturePad"
        [LibRes.script "sp.js"] false).1.registry "signaturepad"
      = some (requireLibrary exLoader "signaturepad" "SignaturePad"
        [LibRes.script "sp.js"] false).2) ∧
    ((requireLibrary exLoader "signaturepad" "SignaturePad"
        [LibRes.script "sp.js"] false).1.registry.countP
        (fun e => e.1 == "signaturepad") = 1) ∧
    (requireLibrary (requireLibrary exLoader "signaturepad" "SignaturePad"
        [LibRes.script "sp.js"] false).1 "signaturepad" "SignaturePad2"
        [LibRes.styles "sp.css"] true
      = ((requireLibrary exLoader "signaturepad" "SignaturePad"
          [LibRes.script "sp.js"] false).1,
         (requireLibrary exLoader "signaturepad" "SignaturePad"
          [LibRes.script "sp.js"] false).2)) :=
  c9_require_library_shared exLoader "signaturepad" "SignaturePad"
    [LibRes.script "sp.js"] false "SignaturePad2" [LibRes.styles "sp.css"] true rfl

/-- Witness for C3 at a component whose data entry holds `"x"` while the
input displays `"y"`: the value changes, the guard does not apply, and the
notification is scheduled. -/
theorem c3_update_value_notification_witness :
    dataGet (updateValue 0 exTruthyScalar false) = (getValue exTruthyScalar).1 ∧
    ((updateValue 0 exTruthyScalar false).pending ≠ none ↔
      (dataGet exTruthyScalar ≠ (getValue exTruthyScalar).1 ∧
        ¬(truthy (dataGet exTruthyScalar) = false ∧ dataGet exTruthyScalar ≠ JSVal.null ∧
          dataGet exTruthyScalar ≠ JSVal.undef ∧
          truthy (getValue exTruthyScalar).1 = false))) :=
  c3_update_value_notification 0 exTruthyScalar false rfl

end FormioBase
